import Mathlib

/-!
Shallow embedding of `src/geotiffconverter.py.py` (batch PNG → GeoTIFF
converter).

The core pieces embedded here:

* `parse_map` (source lines 69–82): line-oriented parser of `.map`
  calibration files.  Python floats are modelled as `ℚ`; the Python
  function returns `None` on any exception, which we model as `Option`.
  String primitives (`str.split`, `str.startswith`, `float`) are
  modelled by structurally recursive functions over `List Char` so
  that concrete runs reduce inside the kernel.
* `from_bounds` (call at source line 150): the transform builder.  Its
  code is the `rasterio` library, not part of this repository, so it is
  modelled from the spec (§4.2).
* The per-pair conversion step and batch loop (source lines 142–185),
  modelled as a pure function over an environment that records the
  success or failure of each external effect (image decode, raster
  write, reprojection), tracking the temporary files left on disk and
  the per-key summary entries.
-/

namespace GeoTiff

/-- Model of Python `line.split(sep)` for a one-character separator:
split into (possibly empty) groups between occurrences of `sep`;
the empty string yields one empty group, as in Python. -/
def chSplit (sep : Char) : List Char → List (List Char)
  | [] => [[]]
  | c :: rest =>
    match chSplit sep rest with
    | [] => [[]]
    | g :: gs => if c = sep then [] :: g :: gs else (c :: g) :: gs

/-- Model of Python `line.startswith(tag)` on decoded text. -/
def startswith (tag line : String) : Bool :=
  tag.toList.isPrefixOf line.toList

/-- Value of a list of decimal digit characters read left to right;
fails on any non-digit. An empty list yields 0 (callers enforce
non-emptiness where Python does). -/
def digitsVal? (cs : List Char) : Option ℕ :=
  cs.foldlM (fun acc c => if c.isDigit then some (10 * acc + (c.toNat - 48)) else none) 0

/-- Unsigned decimal literal as accepted by Python `float` (integer
part, optional dot and fractional part, at least one digit overall;
exponent and inf/nan forms are not needed by this program's data and
are not modelled). Returns numerator and denominator. -/
def unsignedFloat? (cs : List Char) : Option (ℕ × ℕ) :=
  let intPart := cs.takeWhile (fun c => c ≠ '.')
  let rest := cs.dropWhile (fun c => c ≠ '.')
  match rest with
  | [] => if intPart.isEmpty then none else (digitsVal? intPart).map (fun n => (n, 1))
  | _ :: frac =>
    if intPart.isEmpty && frac.isEmpty then none
    else do
      let ip ← digitsVal? intPart
      let fp ← digitsVal? frac
      pure (ip * 10 ^ frac.length + fp, 10 ^ frac.length)

/-- Model of Python `float(s)`: strip surrounding whitespace, optional
sign, then an unsigned decimal literal. -/
def pyfloat? (s : String) : Option ℚ :=
  match (s.toList.dropWhile Char.isWhitespace).reverse.dropWhile Char.isWhitespace |>.reverse with
  | '-' :: rest => (unsignedFloat? rest).map (fun p => mkRat (-(p.1 : ℤ)) p.2)
  | '+' :: rest => (unsignedFloat? rest).map (fun p => mkRat (p.1 : ℤ) p.2)
  | cs => (unsignedFloat? cs).map (fun p => mkRat (p.1 : ℤ) p.2)

/-- Model of `map(float, line.split(",")[2:4])` unpacked into two
targets: the comma-split fields at 0-indexed positions 2 and 3 must
both exist and parse as floats, else the line raises (here: `none`). -/
def parseTwo (line : String) : Option (ℚ × ℚ) :=
  match ((chSplit ',' line.toList).drop 2).take 2 with
  | [s1, s2] => do
    let a ← pyfloat? (String.mk s1)
    let b ← pyfloat? (String.mk s2)
    pure (a, b)
  | _ => none

/-- The `coords` dictionary of `parse_map`, one optional slot per
required key. -/
structure Coords where
  minx? : Option ℚ
  miny? : Option ℚ
  maxx? : Option ℚ
  maxy? : Option ℚ
deriving DecidableEq

/-- The empty `coords` dictionary. -/
def Coords.init : Coords := ⟨none, none, none, none⟩

/-- One iteration of the `for line in lines` loop of `parse_map`
(source lines 73–79): the `if/elif` chain on the line's prefix. A
recognized line whose fields fail to parse raises, aborting the whole
parse (`none`); an unrecognized line is skipped. -/
def processLine (c : Coords) (line : String) : Option Coords :=
  if startswith "MMPLL, 1" line then
    (parseTwo line).map (fun p => { c with minx? := some p.1, maxy? := some p.2 })
  else if startswith "MMPLL, 2" line then
    (parseTwo line).map (fun p => { c with maxx? := some p.1 })
  else if startswith "MMPLL, 3" line then
    (parseTwo line).map (fun p => { c with miny? := some p.2 })
  else
    some c

/-- The `for` loop of `parse_map` over all lines, with exception
propagation: the first failing line aborts the loop. -/
def runLines (c : Coords) : List String → Option Coords
  | [] => some c
  | line :: rest =>
    match processLine c line with
    | none => none
    | some c2 => runLines c2 rest

/-- `parse_map` (source lines 69–82) on the decoded line list: run the
loop, then read the four required keys out of `coords`; a missing key
raises `KeyError`, caught and turned into `None` (here `none`). The
result tuple order is `(minx, miny, maxx, maxy)` as in the `return`
statement at line 80. -/
def parse_map (lines : List String) : Option (ℚ × ℚ × ℚ × ℚ) := do
  let c ← runLines Coords.init lines
  let mnx ← c.minx?
  let mny ← c.miny?
  let mxx ← c.maxx?
  let mxy ← c.maxy?
  pure (mnx, mny, mxx, mxy)

/-- Failure type of the transform builder (spec §4.2, §7). -/
inductive DegenerateBoundsError where
  | degenerate
deriving DecidableEq

/-- A 6-parameter affine transform from pixel space (col, row) to
world space (x, y): `x = a·col + b·row + c`, `y = d·col + e·row + f`. -/
structure Affine where
  a : ℚ
  b : ℚ
  c : ℚ
  d : ℚ
  e : ℚ
  f : ℚ
deriving DecidableEq

/-- Forward application of an affine transform to a pixel coordinate. -/
def Affine.apply (t : Affine) (col row : ℚ) : ℚ × ℚ :=
  (t.a * col + t.b * row + t.c, t.d * col + t.e * row + t.f)

/-- Modelled from the spec: `rasterio.transform.from_bounds` (called at
source line 150) is third-party library code not present in this
repository. Per spec §4.2 it places pixel (0,0) at `(minx, maxy)` and
pixel `(width, height)` at `(maxx, miny)` with uniform per-axis scaling,
and fails with `DegenerateBoundsError` if `width ≤ 0`, `height ≤ 0`, or
the bounds invariant `minx < maxx ∧ miny < maxy` is violated. -/
def from_bounds (west south east north : ℚ) (width height : ℤ) :
    Except DegenerateBoundsError Affine :=
  if width ≤ 0 ∨ height ≤ 0 ∨ east ≤ west ∨ north ≤ south then
    .error .degenerate
  else
    .ok ⟨(east - west) / (width : ℚ), 0, west, 0, (south - north) / (height : ℚ), north⟩

/-- The sidebar output-type selector (source line 42). -/
inductive OutputType where
  | latlon
  | geocentric
deriving DecidableEq

/-- Temporary raster files a single pair's conversion can create:
`temp_tif` (source line 153) and `temp_xyz` (source line 165). -/
inductive TempFile where
  | baseTif
  | xyzTif
deriving DecidableEq

/-- Environment for one pair's conversion step: outcome of each
external effect the `try` block at source lines 143–179 performs, plus
the decoded image dimensions and the byte size read back from the
final GeoTIFF. -/
structure PairEnv where
  decodeOk : Bool
  imgWidth : ℤ
  imgHeight : ℤ
  writeOk : Bool
  reprojOk : Bool
  tifBytes : ℕ
deriving DecidableEq

instance {ε α : Type} [DecidableEq ε] [DecidableEq α] : DecidableEq (Except ε α) := fun x y =>
  match x, y with
  | .ok a, .ok b =>
    if h : a = b then isTrue (by rw [h]) else isFalse (fun he => h (Except.ok.inj he))
  | .error a, .error b =>
    if h : a = b then isTrue (by rw [h]) else isFalse (fun he => h (Except.error.inj he))
  | .ok _, .error _ => isFalse (fun he => Except.noConfusion he)
  | .error _, .ok _ => isFalse (fun he => Except.noConfusion he)

/-- Observable trace of one pair's conversion step: whether the image
decode was attempted, the archive entry written (byte count) if any,
the temporary files still on disk when the step ends, and the result
recorded for the pair (success with byte count, or the caught
exception's message). -/
structure PairTrace where
  decodeAttempted : Bool
  zipEntry : Option ℕ
  tempsLeft : List TempFile
  result : Except String ℕ
deriving DecidableEq

/-- One iteration of the conversion loop body (source lines 143–183)
for a single key, faithful to the order of operations:
image decode (line 145), cached-bounds lookup (line 149, `KeyError`
when the key is absent from `bounds_cache`), transform construction
(line 150), temp-file creation and raster write (lines 153–161,
`delete=False` so a failed write leaves the file), optional
reprojection into a second temp file (lines 164–167), read-back and
archive write (lines 169–172), then `os.remove(final_tif)` (line 174)
and, in geocentric mode, `os.remove(temp_xyz.name)` (line 176) — which
targets the file just removed (since `final_tif == temp_xyz.name`) and
therefore raises `FileNotFoundError`; the base raster is never removed
in that mode. Any exception is caught at line 181. -/
def processPair (ot : OutputType) (bounds? : Option (ℚ × ℚ × ℚ × ℚ)) (env : PairEnv) :
    PairTrace :=
  if ¬ env.decodeOk then
    ⟨true, none, [], .error "ImageDecodeError"⟩
  else
    match bounds? with
    | none => ⟨true, none, [], .error "KeyError"⟩
    | some (mnx, mny, mxx, mxy) =>
      match from_bounds mnx mny mxx mxy env.imgWidth env.imgHeight with
      | .error _ => ⟨true, none, [], .error "DegenerateBoundsError"⟩
      | .ok _ =>
        if ¬ env.writeOk then
          ⟨true, none, [.baseTif], .error "WriteError"⟩
        else
          match ot with
          | .latlon =>
            ⟨true, some env.tifBytes, [], .ok env.tifBytes⟩
          | .geocentric =>
            if ¬ env.reprojOk then
              ⟨true, none, [.baseTif, .xyzTif], .error "ReprojectionError"⟩
            else
              ⟨true, some env.tifBytes, [.baseTif], .error "FileNotFoundError"⟩

/-- The `conversion_summary` session entry (source line 137): success
keys, failed keys with messages, and the total byte count. -/
structure Summary where
  success : List String
  failed : List (String × String)
  totalBytes : ℕ
deriving DecidableEq

/-- Accumulation of one pair's trace into the running summary
(source lines 171–183): the archive entry and byte total are recorded
before the removals, so a pair can both contribute bytes and be
recorded as failed. -/
def stepPair (ot : OutputType) (boundsCache : String → Option (ℚ × ℚ × ℚ × ℚ))
    (envs : String → PairEnv) (s : Summary) (key : String) : Summary :=
  let t := processPair ot (boundsCache key) (envs key)
  { success := s.success ++ (match t.result with | .ok _ => [key] | .error _ => [])
    failed := s.failed ++ (match t.result with | .ok _ => [] | .error e => [(key, e)])
    totalBytes := s.totalBytes + t.zipEntry.getD 0 }

/-- The conversion loop (source lines 142–185): iterate over
`matched_keys` in order, each iteration wrapped in `try/except`, so a
failing pair records a failure entry and the loop continues. -/
def runBatchFrom (ot : OutputType) (boundsCache : String → Option (ℚ × ℚ × ℚ × ℚ))
    (envs : String → PairEnv) (s : Summary) : List String → Summary
  | [] => s
  | key :: rest => runBatchFrom ot boundsCache envs (stepPair ot boundsCache envs s key) rest

/-- The whole batch run starting from the fresh summary initialised at
source line 137. -/
def runBatch (ot : OutputType) (boundsCache : String → Option (ℚ × ℚ × ℚ × ℚ))
    (envs : String → PairEnv) (keys : List String) : Summary :=
  runBatchFrom ot boundsCache envs ⟨[], [], 0⟩ keys

/-- The eager pre-conversion parse stage (source lines 96–105): for
each matched key, parse its map file's lines and store the bounds in
the cache when the parse succeeds (a populated 4-tuple is always
truthy, `None` is falsy); a failed parse adds no entry, so a later
lookup of that key raises `KeyError`. Dict lookup is modelled as a
function returning `none` for absent keys. -/
def bounds_cache (mapData : String → List String) (keys : List String) (k : String) :
    Option (ℚ × ℚ × ℚ × ℚ) :=
  if k ∈ keys then parse_map (mapData k) else none

/-! Helper lemmas about the parser embedding. -/

lemma startswith_excl (t u l : String) (hlen : t.toList.length = u.toList.length)
    (hne : t.toList ≠ u.toList) (h : startswith t l = true) : startswith u l = false := by
  by_contra hu
  rw [Bool.not_eq_false] at hu
  unfold startswith at h hu
  rw [List.isPrefixOf_iff_prefix] at h hu
  exact hne ((List.prefix_of_prefix_length_le h hu hlen.le).eq_of_length hlen)

lemma processLine_preserve {c c2 : Coords} {l : String} (hp : processLine c l = some c2) :
    (startswith "MMPLL, 1" l = false → c2.minx? = c.minx? ∧ c2.maxy? = c.maxy?) ∧
    (startswith "MMPLL, 2" l = false → c2.maxx? = c.maxx?) ∧
    (startswith "MMPLL, 3" l = false → c2.miny? = c.miny?) := by
  unfold processLine at hp
  split at hp
  next h1 =>
    obtain ⟨p, -, rfl⟩ := Option.map_eq_some'.mp hp
    exact ⟨fun hf => absurd h1 (by simp [hf]), fun _ => rfl, fun _ => rfl⟩
  next h1 =>
    split at hp
    next h2 =>
      obtain ⟨p, -, rfl⟩ := Option.map_eq_some'.mp hp
      exact ⟨fun _ => ⟨rfl, rfl⟩, fun hf => absurd h2 (by simp [hf]), fun _ => rfl⟩
    next h2 =>
      split at hp
      next h3 =>
        obtain ⟨p, -, rfl⟩ := Option.map_eq_some'.mp hp
        exact ⟨fun _ => ⟨rfl, rfl⟩, fun _ => rfl, fun hf => absurd h3 (by simp [hf])⟩
      next h3 =>
        simp only [Option.some.injEq] at hp
        subst hp
        exact ⟨fun _ => ⟨rfl, rfl⟩, fun _ => rfl, fun _ => rfl⟩

lemma processLine_mono {c c2 : Coords} {l : String} (hp : processLine c l = some c2) :
    (c.minx?.isSome = true → c2.minx?.isSome = true) ∧
    (c.miny?.isSome = true → c2.miny?.isSome = true) ∧
    (c.maxx?.isSome = true → c2.maxx?.isSome = true) ∧
    (c.maxy?.isSome = true → c2.maxy?.isSome = true) := by
  unfold processLine at hp
  split at hp
  next h1 =>
    obtain ⟨p, -, rfl⟩ := Option.map_eq_some'.mp hp
    exact ⟨fun _ => rfl, fun h => h, fun h => h, fun _ => rfl⟩
  next h1 =>
    split at hp
    next h2 =>
      obtain ⟨p, -, rfl⟩ := Option.map_eq_some'.mp hp
      exact ⟨fun h => h, fun h => h, fun _ => rfl, fun h => h⟩
    next h2 =>
      split at hp
      next h3 =>
        obtain ⟨p, -, rfl⟩ := Option.map_eq_some'.mp hp
        exact ⟨fun h => h, fun _ => rfl, fun h => h, fun h => h⟩
      next h3 =>
        simp only [Option.some.injEq] at hp
        subst hp
        exact ⟨id, id, id, id⟩

lemma processLine_sets {c c2 : Coords} {l : String} (hp : processLine c l = some c2) :
    (startswith "MMPLL, 1" l = true → c2.minx?.isSome = true ∧ c2.maxy?.isSome = true) ∧
    (startswith "MMPLL, 2" l = true → c2.maxx?.isSome = true) ∧
    (startswith "MMPLL, 3" l = true → c2.miny?.isSome = true) := by
  unfold processLine at hp
  split at hp
  next h1 =>
    obtain ⟨p, -, rfl⟩ := Option.map_eq_some'.mp hp
    refine ⟨fun _ => ⟨rfl, rfl⟩, fun h2 => ?_, fun h3 => ?_⟩
    · have hx := startswith_excl "MMPLL, 2" "MMPLL, 1" l (by decide) (by decide) h2
      exact absurd h1 (by simp [hx])
    · have hx := startswith_excl "MMPLL, 3" "MMPLL, 1" l (by decide) (by decide) h3
      exact absurd h1 (by simp [hx])
  next h1 =>
    split at hp
    next h2 =>
      obtain ⟨p, -, rfl⟩ := Option.map_eq_some'.mp hp
      refine ⟨fun h1t => absurd h1t h1, fun _ => rfl, fun h3 => ?_⟩
      have hx := startswith_excl "MMPLL, 3" "MMPLL, 2" l (by decide) (by decide) h3
      exact absurd h2 (by simp [hx])
    next h2 =>
      split at hp
      next h3 =>
        obtain ⟨p, -, rfl⟩ := Option.map_eq_some'.mp hp
        exact ⟨fun h1t => absurd h1t h1, fun h2t => absurd h2t h2, fun _ => rfl⟩
      next h3 =>
        simp only [Option.some.injEq] at hp
        subst hp
        exact ⟨fun h1t => absurd h1t h1, fun h2t => absurd h2t h2, fun h3t => absurd h3t h3⟩

lemma processLine_total (c : Coords) (l : String)
    (hok : (startswith "MMPLL, 1" l = true ∨ startswith "MMPLL, 2" l = true ∨
        startswith "MMPLL, 3" l = true) → (parseTwo l).isSome = true) :
    ∃ c2, processLine c l = some c2 := by
  unfold processLine
  split
  next h1 =>
    obtain ⟨p, hpt⟩ := Option.isSome_iff_exists.mp (hok (Or.inl h1))
    exact ⟨_, by rw [hpt]; rfl⟩
  next h1 =>
    split
    next h2 =>
      obtain ⟨p, hpt⟩ := Option.isSome_iff_exists.mp (hok (Or.inr (Or.inl h2)))
      exact ⟨_, by rw [hpt]; rfl⟩
    next h2 =>
      split
      next h3 =>
        obtain ⟨p, hpt⟩ := Option.isSome_iff_exists.mp (hok (Or.inr (Or.inr h3)))
        exact ⟨_, by rw [hpt]; rfl⟩
      next h3 => exact ⟨c, rfl⟩

lemma processLine_tag1 {c : Coords} {l : String} {a b : ℚ}
    (h1 : startswith "MMPLL, 1" l = true) (hpt : parseTwo l = some (a, b)) :
    processLine c l = some { c with minx? := some a, maxy? := some b } := by
  unfold processLine
  rw [if_pos h1, hpt]
  rfl

lemma processLine_tag2 {c : Coords} {l : String} {a b : ℚ}
    (h2 : startswith "MMPLL, 2" l = true) (hpt : parseTwo l = some (a, b)) :
    processLine c l = some { c with maxx? := some a } := by
  have h1 := startswith_excl "MMPLL, 2" "MMPLL, 1" l (by decide) (by decide) h2
  unfold processLine
  rw [if_neg (by simp [h1]), if_pos h2, hpt]
  rfl

lemma processLine_tag3 {c : Coords} {l : String} {a b : ℚ}
    (h3 : startswith "MMPLL, 3" l = true) (hpt : parseTwo l = some (a, b)) :
    processLine c l = some { c with miny? := some b } := by
  have h1 := startswith_excl "MMPLL, 3" "MMPLL, 1" l (by decide) (by decide) h3
  have h2 := startswith_excl "MMPLL, 3" "MMPLL, 2" l (by decide) (by decide) h3
  unfold processLine
  rw [if_neg (by simp [h1]), if_neg (by simp [h2]), if_pos h3, hpt]
  rfl

lemma runLines_append (xs ys : List String) (c : Coords) :
    runLines c (xs ++ ys) = (runLines c xs).bind (fun c2 => runLines c2 ys) := by
  induction xs generalizing c with
  | nil => simp [runLines]
  | cons x rest ih =>
    simp only [List.cons_append, runLines]
    cases processLine c x with
    | none => simp
    | some c1 => simp [ih]

lemma runLines_preserve (P : String → Bool) (f : Coords → Option ℚ)
    (hstep : ∀ c c2 l, P l = false → processLine c l = some c2 → f c2 = f c)
    (lines : List String) :
    ∀ c c2, (∀ l ∈ lines, P l = false) → runLines c lines = some c2 → f c2 = f c := by
  induction lines with
  | nil =>
    intro c c2 _ h
    simp only [runLines, Option.some.injEq] at h
    rw [h]
  | cons x rest ih =>
    intro c c2 hall h
    unfold runLines at h
    cases hx : processLine c x with
    | none => rw [hx] at h; cases h
    | some c1 =>
      rw [hx] at h
      rw [ih c1 c2 (fun l hl => hall l (List.mem_cons_of_mem x hl)) h,
        hstep c c1 x (hall x (List.mem_cons_self x rest)) hx]

lemma runLines_mono (f : Coords → Option ℚ)
    (hstep : ∀ c c2 l, processLine c l = some c2 → (f c).isSome = true → (f c2).isSome = true)
    (lines : List String) :
    ∀ c c2, runLines c lines = some c2 → (f c).isSome = true → (f c2).isSome = true := by
  induction lines with
  | nil =>
    intro c c2 h hs
    simp only [runLines, Option.some.injEq] at h
    rw [← h]
    exact hs
  | cons x rest ih =>
    intro c c2 h hs
    unfold runLines at h
    cases hx : processLine c x with
    | none => rw [hx] at h; cases h
    | some c1 =>
      rw [hx] at h
      exact ih c1 c2 h (hstep c c1 x hx hs)

lemma runLines_sets (P : String → Bool) (f : Coords → Option ℚ)
    (hset : ∀ c c2 l, P l = true → processLine c l = some c2 → (f c2).isSome = true)
    (hstep : ∀ c c2 l, processLine c l = some c2 → (f c).isSome = true → (f c2).isSome = true)
    (lines : List String) :
    ∀ c c2 l, l ∈ lines → P l = true → runLines c lines = some c2 → (f c2).isSome = true := by
  induction lines with
  | nil => intro c c2 l hl; cases hl
  | cons x rest ih =>
    intro c c2 l hl hPl h
    unfold runLines at h
    cases hx : processLine c x with
    | none => rw [hx] at h; cases h
    | some c1 =>
      rw [hx] at h
      rcases List.mem_cons.mp hl with rfl | hl2
      · exact runLines_mono f hstep rest c1 c2 h (hset c c1 l hPl hx)
      · exact ih c1 c2 l hl2 hPl h

lemma runLines_total (lines : List String)
    (hok : ∀ l ∈ lines, (startswith "MMPLL, 1" l = true ∨ startswith "MMPLL, 2" l = true ∨
        startswith "MMPLL, 3" l = true) → (parseTwo l).isSome = true) :
    ∀ c, ∃ c2, runLines c lines = some c2 := by
  induction lines with
  | nil => intro c; exact ⟨c, rfl⟩
  | cons x rest ih =>
    intro c
    obtain ⟨c1, hc1⟩ := processLine_total c x (hok x (List.mem_cons_self x rest))
    obtain ⟨c2, hc2⟩ := ih (fun l hl => hok l (List.mem_cons_of_mem x hl)) c1
    refine ⟨c2, ?_⟩
    unfold runLines
    rw [hc1]
    exact hc2

lemma parse_map_eq (lines : List String) :
    parse_map lines = (runLines Coords.init lines).bind (fun c =>
      c.minx?.bind fun mnx => c.miny?.bind fun mny => c.maxx?.bind fun mxx =>
        c.maxy?.bind fun mxy => some (mnx, mny, mxx, mxy)) := rfl

/-! Helper lemmas about the batch-loop embedding. -/

lemma runBatchFrom_length (ot : OutputType) (bc : String → Option (ℚ × ℚ × ℚ × ℚ))
    (envs : String → PairEnv) (keys : List String) :
    ∀ s : Summary,
      (runBatchFrom ot bc envs s keys).success.length +
        (runBatchFrom ot bc envs s keys).failed.length =
      s.success.length + s.failed.length + keys.length := by
  induction keys with
  | nil => intro s; simp [runBatchFrom]
  | cons k rest ih =>
    intro s
    unfold runBatchFrom
    rw [ih]
    cases hres : (processPair ot (bc k) (envs k)).result <;>
      simp [stepPair, hres, List.length_append] <;> omega

lemma runBatchFrom_mono (ot : OutputType) (bc : String → Option (ℚ × ℚ × ℚ × ℚ))
    (envs : String → PairEnv) (keys : List String) :
    ∀ s : Summary,
      (∀ k, k ∈ s.success → k ∈ (runBatchFrom ot bc envs s keys).success) ∧
      (∀ p, p ∈ s.failed → p ∈ (runBatchFrom ot bc envs s keys).failed) := by
  induction keys with
  | nil => intro s; exact ⟨fun _ h => h, fun _ h => h⟩
  | cons k rest ih =>
    intro s
    unfold runBatchFrom
    refine ⟨fun k2 h => ?_, fun p h => ?_⟩
    · exact (ih (stepPair ot bc envs s k)).1 k2 (List.mem_append_left _ h)
    · exact (ih (stepPair ot bc envs s k)).2 p (List.mem_append_left _ h)

lemma runBatchFrom_mem (ot : OutputType) (bc : String → Option (ℚ × ℚ × ℚ × ℚ))
    (envs : String → PairEnv) (keys : List String) :
    ∀ (s : Summary) (key : String), key ∈ keys →
      (∀ e, (processPair ot (bc key) (envs key)).result = .error e →
        (key, e) ∈ (runBatchFrom ot bc envs s keys).failed) ∧
      (∀ n, (processPair ot (bc key) (envs key)).result = .ok n →
        key ∈ (runBatchFrom ot bc envs s keys).success) := by
  induction keys with
  | nil => intro s key h; cases h
  | cons k rest ih =>
    intro s key hk
    rcases List.mem_cons.mp hk with rfl | hk2
    · refine ⟨fun e he => ?_, fun n hn => ?_⟩
      · refine (runBatchFrom_mono ot bc envs rest (stepPair ot bc envs s key)).2 (key, e) ?_
        simp [stepPair, he]
      · refine (runBatchFrom_mono ot bc envs rest (stepPair ot bc envs s key)).1 key ?_
        simp [stepPair, hn]
    · exact ih (stepPair ot bc envs s k) key hk2

lemma runLines_append_inv {xs rest : List String} {c c2 : Coords}
    (h : runLines c (xs ++ rest) = some c2) :
    ∃ c1, runLines c xs = some c1 ∧ runLines c1 rest = some c2 := by
  rw [runLines_append] at h
  cases hxs : runLines c xs with
  | none => rw [hxs] at h; cases h
  | some c1 => rw [hxs] at h; exact ⟨c1, rfl, h⟩

lemma runLines_cons_inv {l : String} {rest : List String} {c c2 : Coords}
    (h : runLines c (l :: rest) = some c2) :
    ∃ c1, processLine c l = some c1 ∧ runLines c1 rest = some c2 := by
  unfold runLines at h
  cases hx : processLine c l with
  | none => rw [hx] at h; cases h
  | some c1 => rw [hx] at h; exact ⟨c1, rfl, h⟩

lemma parse_map_fields {lines : List String} {mnx mny mxx mxy : ℚ}
    (h : parse_map lines = some (mnx, mny, mxx, mxy)) :
    ∃ c2, runLines Coords.init lines = some c2 ∧ c2.minx? = some mnx ∧
      c2.miny? = some mny ∧ c2.maxx? = some mxx ∧ c2.maxy? = some mxy := by
  rw [parse_map_eq] at h
  simp only [Option.bind_eq_some] at h
  obtain ⟨c, hc, a, ha, b, hb, d, hd, e, he, heq⟩ := h
  simp only [Option.some.injEq, Prod.mk.injEq] at heq
  obtain ⟨h1, h2, h3, h4⟩ := heq
  exact ⟨c, hc, h1 ▸ ha, h2 ▸ hb, h3 ▸ hd, h4 ▸ he⟩

/-- C1 counterexample: on the spec's scenario text, whose `MMPLL` lines
carry five comma-separated fields, `parse_map` reads the fields at
0-indexed positions 2 and 3 — which in that text are the point-number
field and the first coordinate — and therefore returns
`(1, 5, 1, -10)`, not the claimed `(-10, 5, 30, 20)`. -/
theorem parse_map_spec_scenario_refuted :
    parse_map ["MMPLL, 1, 1, -10.0, 20.0", "MMPLL, 2, 1, 30.0, 5.0",
        "MMPLL, 3, 1, 5.0, 5.0"] ≠ some (-10, 5, 30, 20) ∧
    parse_map ["MMPLL, 1, 1, -10.0, 20.0", "MMPLL, 2, 1, 30.0, 5.0",
        "MMPLL, 3, 1, 5.0, 5.0"] = some (1, 5, 1, -10) := by decide

/-- C1 (amended): for the calibration text whose three recognized lines
carry the coordinate pair at comma fields 2 and 3 — `MMPLL, 1, -10.0, 20.0`,
`MMPLL, 2, 30.0, 5.0`, `MMPLL, 3, 5.0, 5.0` — `parse_map` returns the
bounds `minx = -10.0, miny = 5.0, maxx = 30.0, maxy = 20.0`. -/
theorem parse_map_scenario_bounds :
    parse_map ["MMPLL, 1, -10.0, 20.0", "MMPLL, 2, 30.0, 5.0", "MMPLL, 3, 5.0, 5.0"] =
      some (-10, 5, 30, 20) := by decide

/-- C2: for every calibration line list in which at least one of the
three recognized line types (prefix `MMPLL, 1`, `MMPLL, 2`, `MMPLL, 3`)
is absent, `parse_map` fails (returns `none`, the embedding of the
Python function's `None` failure result) — it never returns a
partially-populated or defaulted bounds tuple. -/
theorem parse_map_missing_line_fails (lines : List String)
    (h : (∀ l ∈ lines, startswith "MMPLL, 1" l = false) ∨
         (∀ l ∈ lines, startswith "MMPLL, 2" l = false) ∨
         (∀ l ∈ lines, startswith "MMPLL, 3" l = false)) :
    parse_map lines = none := by
  rw [parse_map_eq]
  cases hr : runLines Coords.init lines with
  | none => rfl
  | some c2 =>
    rcases h with h1 | h2 | h3
    · have hx : c2.minx? = none :=
        runLines_preserve (startswith "MMPLL, 1") (fun c => c.minx?)
          (fun cA cB lx hf hq => ((processLine_preserve hq).1 hf).1)
          lines Coords.init c2 h1 hr
      simp [hx]
    · have hx : c2.maxx? = none :=
        runLines_preserve (startswith "MMPLL, 2") (fun c => c.maxx?)
          (fun cA cB lx hf hq => (processLine_preserve hq).2.1 hf)
          lines Coords.init c2 h2 hr
      cases hm : c2.minx? <;> cases hn : c2.miny? <;> simp [hx]
    · have hx : c2.miny? = none :=
        runLines_preserve (startswith "MMPLL, 3") (fun c => c.miny?)
          (fun cA cB lx hf hq => (processLine_preserve hq).2.2 hf)
          lines Coords.init c2 h3 hr
      cases hm : c2.minx? <;> simp [hx]

/-- C2 witness: a text with only line types 2 and 3 parses to `none`. -/
theorem parse_map_missing_line_fails_witness :
    parse_map ["MMPLL, 2, 30.0, 5.0", "MMPLL, 3, 5.0, 5.0"] = none :=
  parse_map_missing_line_fails _ (Or.inl (by decide))

/-- C5 counterexample: a calibration text with all three recognized
line types and well-formed numeric fields whose parsed bounds violate
both `minx < maxx` and `miny < maxy`; `parse_map` performs no ordering
check and returns the tuple anyway. -/
theorem parse_map_unordered_bounds :
    parse_map ["MMPLL, 1, 30.0, 20.0", "MMPLL, 2, -10.0, 5.0", "MMPLL, 3, 0.0, 25.0"] =
      some (30, 25, -10, 20) ∧ ¬ ((30 : ℚ) < -10 ∧ (25 : ℚ) < 20) := by decide

/-- C5 (amended): for every calibration line list containing all three
recognized line types with well-formed numeric fields, `parse_map`
succeeds and returns a fully populated bounds tuple — but the ordering
`minx < maxx`, `miny < maxy` is not guaranteed (it depends on the data,
see the counterexample). -/
theorem parse_map_wellformed_returns_bounds (lines : List String)
    (hok : ∀ l ∈ lines, (startswith "MMPLL, 1" l = true ∨ startswith "MMPLL, 2" l = true ∨
        startswith "MMPLL, 3" l = true) → (parseTwo l).isSome = true)
    (h1 : ∃ l ∈ lines, startswith "MMPLL, 1" l = true)
    (h2 : ∃ l ∈ lines, startswith "MMPLL, 2" l = true)
    (h3 : ∃ l ∈ lines, startswith "MMPLL, 3" l = true) :
    ∃ b, parse_map lines = some b := by
  obtain ⟨c2, hr⟩ := runLines_total lines hok Coords.init
  obtain ⟨l1, hl1, hs1⟩ := h1
  obtain ⟨l2, hl2, hs2⟩ := h2
  obtain ⟨l3, hl3, hs3⟩ := h3
  have hminx : c2.minx?.isSome = true :=
    runLines_sets (startswith "MMPLL, 1") (fun c => c.minx?)
      (fun cA cB lx hPl hq => ((processLine_sets hq).1 hPl).1)
      (fun cA cB lx hq hs => (processLine_mono hq).1 hs)
      lines Coords.init c2 l1 hl1 hs1 hr
  have hmaxy : c2.maxy?.isSome = true :=
    runLines_sets (startswith "MMPLL, 1") (fun c => c.maxy?)
      (fun cA cB lx hPl hq => ((processLine_sets hq).1 hPl).2)
      (fun cA cB lx hq hs => (processLine_mono hq).2.2.2 hs)
      lines Coords.init c2 l1 hl1 hs1 hr
  have hmaxx : c2.maxx?.isSome = true :=
    runLines_sets (startswith "MMPLL, 2") (fun c => c.maxx?)
      (fun cA cB lx hPl hq => (processLine_sets hq).2.1 hPl)
      (fun cA cB lx hq hs => (processLine_mono hq).2.2.1 hs)
      lines Coords.init c2 l2 hl2 hs2 hr
  have hminy : c2.miny?.isSome = true :=
    runLines_sets (startswith "MMPLL, 3") (fun c => c.miny?)
      (fun cA cB lx hPl hq => (processLine_sets hq).2.2 hPl)
      (fun cA cB lx hq hs => (processLine_mono hq).2.1 hs)
      lines Coords.init c2 l3 hl3 hs3 hr
  obtain ⟨a, ha⟩ := Option.isSome_iff_exists.mp hminx
  obtain ⟨b, hb⟩ := Option.isSome_iff_exists.mp hminy
  obtain ⟨d, hd⟩ := Option.isSome_iff_exists.mp hmaxx
  obtain ⟨e, he⟩ := Option.isSome_iff_exists.mp hmaxy
  refine ⟨(a, b, d, e), ?_⟩
  rw [parse_map_eq, hr]
  simp [ha, hb, hd, he]

/-- C5 witness: the well-formed three-line text parses to some bounds. -/
theorem parse_map_wellformed_returns_bounds_witness :
    ∃ b, parse_map ["MMPLL, 1, -10.0, 20.0", "MMPLL, 2, 30.0, 5.0", "MMPLL, 3, 5.0, 5.0"] =
      some b :=
  parse_map_wellformed_returns_bounds _ (by decide) (by decide) (by decide) (by decide)

/-- C9: inserting (or, read right to left, removing) a line that starts
with none of the three recognized tags anywhere in the calibration text
leaves the result of `parse_map` unchanged; in particular such a line
never causes a parse failure by itself. -/
theorem parse_map_ignores_unrecognized (xs ys : List String) (l : String)
    (h1 : startswith "MMPLL, 1" l = false) (h2 : startswith "MMPLL, 2" l = false)
    (h3 : startswith "MMPLL, 3" l = false) :
    parse_map (xs ++ l :: ys) = parse_map (xs ++ ys) := by
  have hskip : ∀ c, processLine c l = some c := by
    intro c
    unfold processLine
    rw [if_neg (by simp [h1]), if_neg (by simp [h2]), if_neg (by simp [h3])]
  have key : runLines Coords.init (xs ++ l :: ys) = runLines Coords.init (xs ++ ys) := by
    rw [runLines_append, runLines_append]
    cases hxs : runLines Coords.init xs with
    | none => rfl
    | some c2 =>
      simp only [Option.some_bind]
      simp [runLines, hskip c2]
  rw [parse_map_eq, parse_map_eq, key]

/-- C9 witness: a comment line inserted between recognized lines does
not change the parsed bounds. -/
theorem parse_map_ignores_unrecognized_witness :
    parse_map (["MMPLL, 1, -10.0, 20.0"] ++ "OziExplorer Map Data File Version 2.2" ::
        ["MMPLL, 2, 30.0, 5.0", "MMPLL, 3, 5.0, 5.0"]) =
      parse_map (["MMPLL, 1, -10.0, 20.0"] ++ ["MMPLL, 2, 30.0, 5.0", "MMPLL, 3, 5.0, 5.0"]) :=
  parse_map_ignores_unrecognized _ _ _ (by decide) (by decide) (by decide)

/-- C10: when several lines carry the same recognized index, the last
such line in file order wins: whatever values a successful parse
returns for the slots written by that index come from the last line of
that index (earlier occurrences are overwritten, not rejected). Stated
for each of the three indices. -/
theorem parse_map_last_duplicate_wins :
    (∀ (xs ys : List String) (l : String) (a b mnx mny mxx mxy : ℚ),
      startswith "MMPLL, 1" l = true → parseTwo l = some (a, b) →
      (∀ m ∈ ys, startswith "MMPLL, 1" m = false) →
      parse_map (xs ++ l :: ys) = some (mnx, mny, mxx, mxy) → mnx = a ∧ mxy = b) ∧
    (∀ (xs ys : List String) (l : String) (a b mnx mny mxx mxy : ℚ),
      startswith "MMPLL, 2" l = true → parseTwo l = some (a, b) →
      (∀ m ∈ ys, startswith "MMPLL, 2" m = false) →
      parse_map (xs ++ l :: ys) = some (mnx, mny, mxx, mxy) → mxx = a) ∧
    (∀ (xs ys : List String) (l : String) (a b mnx mny mxx mxy : ℚ),
      startswith "MMPLL, 3" l = true → parseTwo l = some (a, b) →
      (∀ m ∈ ys, startswith "MMPLL, 3" m = false) →
      parse_map (xs ++ l :: ys) = some (mnx, mny, mxx, mxy) → mny = b) := by
  refine ⟨?_, ?_, ?_⟩
  · intro xs ys l a b mnx mny mxx mxy hsw hpt hys hp
    obtain ⟨c2, hr, hminx, hminy, hmaxx, hmaxy⟩ := parse_map_fields hp
    obtain ⟨c0, hc0, hrest⟩ := runLines_append_inv hr
    obtain ⟨c1, hc1, hys2⟩ := runLines_cons_inv hrest
    rw [processLine_tag1 hsw hpt] at hc1
    have hc1e := Option.some.inj hc1
    subst hc1e
    have e1 : c2.minx? = some a :=
      runLines_preserve (startswith "MMPLL, 1") (fun c => c.minx?)
        (fun cA cB lx hf hq => ((processLine_preserve hq).1 hf).1) ys _ c2 hys hys2
    have e2 : c2.maxy? = some b :=
      runLines_preserve (startswith "MMPLL, 1") (fun c => c.maxy?)
        (fun cA cB lx hf hq => ((processLine_preserve hq).1 hf).2) ys _ c2 hys hys2
    exact ⟨Option.some.inj (hminx.symm.trans e1), Option.some.inj (hmaxy.symm.trans e2)⟩
  · intro xs ys l a b mnx mny mxx mxy hsw hpt hys hp
    obtain ⟨c2, hr, hminx, hminy, hmaxx, hmaxy⟩ := parse_map_fields hp
    obtain ⟨c0, hc0, hrest⟩ := runLines_append_inv hr
    obtain ⟨c1, hc1, hys2⟩ := runLines_cons_inv hrest
    rw [processLine_tag2 hsw hpt] at hc1
    have hc1e := Option.some.inj hc1
    subst hc1e
    have e1 : c2.maxx? = some a :=
      runLines_preserve (startswith "MMPLL, 2") (fun c => c.maxx?)
        (fun cA cB lx hf hq => (processLine_preserve hq).2.1 hf) ys _ c2 hys hys2
    exact Option.some.inj (hmaxx.symm.trans e1)
  · intro xs ys l a b mnx mny mxx mxy hsw hpt hys hp
    obtain ⟨c2, hr, hminx, hminy, hmaxx, hmaxy⟩ := parse_map_fields hp
    obtain ⟨c0, hc0, hrest⟩ := runLines_append_inv hr
    obtain ⟨c1, hc1, hys2⟩ := runLines_cons_inv hrest
    rw [processLine_tag3 hsw hpt] at hc1
    have hc1e := Option.some.inj hc1
    subst hc1e
    have e1 : c2.miny? = some b :=
      runLines_preserve (startswith "MMPLL, 3") (fun c => c.miny?)
        (fun cA cB lx hf hq => (processLine_preserve hq).2.2 hf) ys _ c2 hys hys2
    exact Option.some.inj (hminy.symm.trans e1)

/-- C10 witness: with two index-1 lines, the parsed `minx` and `maxy`
come from the second (last) one. -/
theorem parse_map_last_duplicate_wins_witness : (-10 : ℚ) = -10 ∧ (20 : ℚ) = 20 :=
  parse_map_last_duplicate_wins.1 ["MMPLL, 1, 0.0, 0.0"]
    ["MMPLL, 2, 30.0, 5.0", "MMPLL, 3, 5.0, 5.0"] "MMPLL, 1, -10.0, 20.0"
    (-10) 20 (-10) 5 30 20 (by decide) (by decide) (by decide) (by decide)

/-- C6: for every bounds tuple with `minx < maxx` and `miny < maxy` and
positive pixel dimensions, the transform built from them maps pixel
(0,0) to the upper-left world corner `(minx, maxy)` and pixel
`(width, height)` to the lower-right world corner `(maxx, miny)`
(exactly, since the embedding works over `ℚ`). -/
theorem from_bounds_maps_corners (west south east north : ℚ) (w h : ℤ)
    (hx : west < east) (hy : south < north) (hw : 0 < w) (hh : 0 < h) :
    ∃ t, from_bounds west south east north w h = .ok t ∧
      t.apply 0 0 = (west, north) ∧ t.apply (w : ℚ) (h : ℚ) = (east, south) := by
  have hcond : ¬ (w ≤ 0 ∨ h ≤ 0 ∨ east ≤ west ∨ north ≤ south) := by
    push_neg
    exact ⟨hw, hh, hx, hy⟩
  have hw0 : (w : ℚ) ≠ 0 := Int.cast_ne_zero.mpr (by omega)
  have hh0 : (h : ℚ) ≠ 0 := Int.cast_ne_zero.mpr (by omega)
  refine ⟨⟨(east - west) / (w : ℚ), 0, west, 0, (south - north) / (h : ℚ), north⟩, ?_, ?_, ?_⟩
  · unfold from_bounds
    rw [if_neg hcond]
  · simp [Affine.apply]
  · simp only [Affine.apply, Prod.mk.injEq]
    constructor
    · field_simp
    · field_simp

/-- C6 witness: the 100 × 50 raster with bounds (-10, 5, 30, 20) gets a
transform with the claimed corner correspondence. -/
theorem from_bounds_maps_corners_witness :
    ∃ t, from_bounds (-10) 5 30 20 100 50 = .ok t ∧
      t.apply 0 0 = (-10, 20) ∧ t.apply ((100 : ℤ) : ℚ) ((50 : ℤ) : ℚ) = (30, 5) :=
  from_bounds_maps_corners (-10) 5 30 20 100 50 (by decide) (by decide) (by decide) (by decide)

/-- C7: the transform builder fails with `DegenerateBoundsError`
whenever `width ≤ 0`, `height ≤ 0`, or the bounds invariant
`minx < maxx ∧ miny < maxy` is violated; it returns no transform in
those cases. -/
theorem from_bounds_rejects_degenerate (west south east north : ℚ) (w h : ℤ)
    (hbad : w ≤ 0 ∨ h ≤ 0 ∨ ¬ west < east ∨ ¬ south < north) :
    from_bounds west south east north w h = .error .degenerate := by
  unfold from_bounds
  refine if_pos ?_
  rcases hbad with hb | hb | hb | hb
  · exact Or.inl hb
  · exact Or.inr (Or.inl hb)
  · exact Or.inr (Or.inr (Or.inl (not_lt.mp hb)))
  · exact Or.inr (Or.inr (Or.inr (not_lt.mp hb)))

/-- C7 witness: zero width is rejected. -/
theorem from_bounds_rejects_degenerate_witness :
    from_bounds 0 0 10 10 0 5 = .error .degenerate :=
  from_bounds_rejects_degenerate 0 0 10 10 0 5 (Or.inl (by decide))

/-- C3 counterexample: in geocentric mode, when reprojection fails
after the base raster was already written, the pair's step ends with
both temporary rasters still on disk — cleanup is not guaranteed on
that exit path. -/
theorem temp_cleanup_refuted :
    (processPair .geocentric (some (0, 0, 1, 1)) ⟨true, 10, 10, true, false, 0⟩).result =
      .error "ReprojectionError" ∧
    (processPair .geocentric (some (0, 0, 1, 1)) ⟨true, 10, 10, true, false, 0⟩).tempsLeft =
      [.baseTif, .xyzTif] := by decide

/-- C3 (amended): temporary rasters are all deleted only on the
successful Lat/Lon path. When the raster write fails the base raster
remains; when reprojection fails both temporaries remain; and in
geocentric mode even the all-successful path leaves the base raster on
disk (the code removes `final_tif`, which then equals the reprojected
file, and its second `os.remove` raises `FileNotFoundError`). -/
theorem temp_cleanup_paths (env : PairEnv) (mnx mny mxx mxy : ℚ)
    (hdec : env.decodeOk = true) (hx : mnx < mxx) (hy : mny < mxy)
    (hw : 0 < env.imgWidth) (hh : 0 < env.imgHeight) :
    (env.writeOk = true →
      (processPair .latlon (some (mnx, mny, mxx, mxy)) env).tempsLeft = []) ∧
    (env.writeOk = false → ∀ ot,
      (processPair ot (some (mnx, mny, mxx, mxy)) env).tempsLeft = [.baseTif]) ∧
    (env.writeOk = true → env.reprojOk = false →
      (processPair .geocentric (some (mnx, mny, mxx, mxy)) env).tempsLeft =
        [.baseTif, .xyzTif]) ∧
    (env.writeOk = true → env.reprojOk = true →
      (processPair .geocentric (some (mnx, mny, mxx, mxy)) env).tempsLeft = [.baseTif]) := by
  have hcond : ¬ (env.imgWidth ≤ 0 ∨ env.imgHeight ≤ 0 ∨ mxx ≤ mnx ∨ mxy ≤ mny) := by
    push_neg
    exact ⟨hw, hh, hx, hy⟩
  have hfb : from_bounds mnx mny mxx mxy env.imgWidth env.imgHeight =
      .ok ⟨(mxx - mnx) / (env.imgWidth : ℚ), 0, mnx, 0,
        (mny - mxy) / (env.imgHeight : ℚ), mxy⟩ := by
    unfold from_bounds
    rw [if_neg hcond]
  refine ⟨fun hwr => ?_, fun hwr ot => ?_, fun hwr hrp => ?_, fun hwr hrp => ?_⟩
  · simp [processPair, hdec, hfb, hwr]
  · simp [processPair, hdec, hfb, hwr]
  · simp [processPair, hdec, hfb, hwr, hrp]
  · simp [processPair, hdec, hfb, hwr, hrp]

/-- C3 witness: with all effects succeeding, the Lat/Lon path leaves no
temporary file, while the geocentric path leaves the base raster. -/
theorem temp_cleanup_paths_witness :
    (processPair .latlon (some (0, 0, 2, 2)) ⟨true, 4, 4, true, true, 9⟩).tempsLeft = [] ∧
    (processPair .geocentric (some (0, 0, 2, 2)) ⟨true, 4, 4, true, true, 9⟩).tempsLeft =
      [.baseTif] :=
  ⟨(temp_cleanup_paths ⟨true, 4, 4, true, true, 9⟩ 0 0 2 2 rfl (by decide) (by decide)
      (by decide) (by decide)).1 rfl,
   (temp_cleanup_paths ⟨true, 4, 4, true, true, 9⟩ 0 0 2 2 rfl (by decide) (by decide)
      (by decide) (by decide)).2.2.2 rfl rfl⟩

/-- C4 counterexample: a matched key whose calibration failed the eager
parse is not skipped by the conversion loop — the loop still attempts
it (the image decode runs), fails at the `bounds_cache` lookup, and
records a `KeyError` failure entry for it. -/
theorem eager_exclusion_refuted :
    (processPair .latlon
      (bounds_cache (fun k => if k = "b" then ["MMPLL, 1, -10.0, 20.0", "MMPLL, 2, 30.0, 5.0",
          "MMPLL, 3, 5.0, 5.0"] else ["no calibration lines"]) ["a", "b"] "a")
      ⟨true, 10, 10, true, true, 7⟩).decodeAttempted = true ∧
    (runBatch .latlon
      (bounds_cache (fun k => if k = "b" then ["MMPLL, 1, -10.0, 20.0", "MMPLL, 2, 30.0, 5.0",
          "MMPLL, 3, 5.0, 5.0"] else ["no calibration lines"]) ["a", "b"])
      (fun _ => ⟨true, 10, 10, true, true, 7⟩) ["a", "b"]).failed = [("a", "KeyError")] ∧
    (runBatch .latlon
      (bounds_cache (fun k => if k = "b" then ["MMPLL, 1, -10.0, 20.0", "MMPLL, 2, 30.0, 5.0",
          "MMPLL, 3, 5.0, 5.0"] else ["no calibration lines"]) ["a", "b"])
      (fun _ => ⟨true, 10, 10, true, true, 7⟩) ["a", "b"]).success = ["b"] := by decide

/-- C4 (amended): a matched key whose calibration failed the eager
parse is still iterated by the conversion loop: its image decode is
attempted, the pair then fails at the cached-bounds lookup and is
recorded as a `KeyError` failure, and it contributes no archive entry —
while every other matched key is still processed to an outcome of its
own. -/
theorem unparsed_key_conversion (ot : OutputType) (mapData : String → List String)
    (envs : String → PairEnv) (keys : List String) (key : String)
    (hk : key ∈ keys) (hparse : parse_map (mapData key) = none)
    (hdec : (envs key).decodeOk = true) :
    (processPair ot (bounds_cache mapData keys key) (envs key)).decodeAttempted = true ∧
    (processPair ot (bounds_cache mapData keys key) (envs key)).zipEntry = none ∧
    (key, "KeyError") ∈ (runBatch ot (bounds_cache mapData keys) envs keys).failed ∧
    (∀ k2 ∈ keys, k2 ∈ (runBatch ot (bounds_cache mapData keys) envs keys).success ∨
      ∃ e, (k2, e) ∈ (runBatch ot (bounds_cache mapData keys) envs keys).failed) := by
  have hbc : bounds_cache mapData keys key = none := by
    unfold bounds_cache
    rw [if_pos hk, hparse]
  have hpp : processPair ot (bounds_cache mapData keys key) (envs key) =
      ⟨true, none, [], .error "KeyError"⟩ := by
    rw [hbc]
    simp [processPair, hdec]
  refine ⟨by rw [hpp], by rw [hpp], ?_, ?_⟩
  · refine (runBatchFrom_mem ot (bounds_cache mapData keys) envs keys ⟨[], [], 0⟩ key hk).1
      "KeyError" ?_
    rw [hpp]
  · intro k2 hk2
    cases hres : (processPair ot (bounds_cache mapData keys k2) (envs k2)).result with
    | ok n =>
      exact Or.inl ((runBatchFrom_mem ot (bounds_cache mapData keys) envs keys
        ⟨[], [], 0⟩ k2 hk2).2 n hres)
    | error e =>
      exact Or.inr ⟨e, (runBatchFrom_mem ot (bounds_cache mapData keys) envs keys
        ⟨[], [], 0⟩ k2 hk2).1 e hres⟩

/-- C4 witness: concrete two-key batch where key `a` has an unparseable
map file and is recorded as a `KeyError` failure by the loop. -/
theorem unparsed_key_conversion_witness :
    ("a", "KeyError") ∈ (runBatch .latlon
      (bounds_cache (fun k => if k = "b" then ["MMPLL, 1, -10.0, 20.0", "MMPLL, 2, 30.0, 5.0",
          "MMPLL, 3, 5.0, 5.0"] else ["garbage"]) ["a", "b"])
      (fun _ => ⟨true, 10, 10, true, true, 7⟩) ["a", "b"]).failed :=
  (unparsed_key_conversion .latlon
    (fun k => if k = "b" then ["MMPLL, 1, -10.0, 20.0", "MMPLL, 2, 30.0, 5.0",
        "MMPLL, 3, 5.0, 5.0"] else ["garbage"])
    (fun _ => ⟨true, 10, 10, true, true, 7⟩) ["a", "b"] "a"
    (by decide) (by decide) rfl).2.2.1

/-- C8: in every batch run, each per-pair failure is recorded as that
pair's failure entry (key and message) and every key in the list still
reaches an outcome — success and failure entries together account for
every key, so no single pair's failure aborts the batch. -/
theorem batch_confines_failures (ot : OutputType) (bc : String → Option (ℚ × ℚ × ℚ × ℚ))
    (envs : String → PairEnv) (keys : List String) :
    ((runBatch ot bc envs keys).success.length + (runBatch ot bc envs keys).failed.length =
      keys.length) ∧
    (∀ key ∈ keys, ∀ e, (processPair ot (bc key) (envs key)).result = .error e →
      (key, e) ∈ (runBatch ot bc envs keys).failed) ∧
    (∀ key ∈ keys, key ∈ (runBatch ot bc envs keys).success ∨
      ∃ e, (key, e) ∈ (runBatch ot bc envs keys).failed) := by
  refine ⟨?_, ?_, ?_⟩
  · have hlen := runBatchFrom_length ot bc envs keys ⟨[], [], 0⟩
    simpa using hlen
  · intro key hk e he
    exact (runBatchFrom_mem ot bc envs keys ⟨[], [], 0⟩ key hk).1 e he
  · intro key hk
    cases hres : (processPair ot (bc key) (envs key)).result with
    | ok n => exact Or.inl ((runBatchFrom_mem ot bc envs keys ⟨[], [], 0⟩ key hk).2 n hres)
    | error e => exact Or.inr ⟨e, (runBatchFrom_mem ot bc envs keys ⟨[], [], 0⟩ key hk).1 e hres⟩

/-- C8 witness: in a two-key batch where the first key fails with a
`KeyError`, the failure is recorded and the second key still succeeds. -/
theorem batch_confines_failures_witness :
    ("a", "KeyError") ∈ (runBatch .latlon (fun k => if k = "b" then some (0, 0, 1, 1) else none)
      (fun _ => ⟨true, 10, 10, true, true, 7⟩) ["a", "b"]).failed :=
  (batch_confines_failures .latlon (fun k => if k = "b" then some (0, 0, 1, 1) else none)
    (fun _ => ⟨true, 10, 10, true, true, 7⟩) ["a", "b"]).2.1 "a" (by decide) "KeyError" (by decide)

end GeoTiff
